import Mathlib

/-!
Verification of the `fetch-npm` package fetcher (canonical revision:
`fetchAndExtractPackage` and its helpers using `jsShell`/`retryAsync`).

The development shallowly embeds:
  * the JS-like values stored in a manifest's `exports` table, with the
    dynamic semantics of `v || {}`, property access, optional chaining and
    `String.prototype.includes` (which can throw a TypeError on a non-string);
  * the manifest entry resolver (the `mainFile` loop of `fetchAndExtractPackage`);
  * `retryAsync` (bounded re-invocation of a fallible operation);
  * the `Promise.any` race over the three tarball locator strategies,
    with completion times made explicit;
  * the orchestrator's try/catch cleanup structure, with each I/O step's
    outcome supplied as data;
  * `downloadWithNpmHttp` / `downloadWitchPack`, including the tarball
    filename pattern and the empty-URL early return;
  * the temp-directory naming `name.split('/').join('-')`.
-/

/-! ## JS-style substring containment (`String.prototype.includes`) -/

/-- `containsAt pat s`: `pat` is a prefix of the character list `s`. -/
def containsAt : List Char → List Char → Bool
  | [], _ => true
  | _ :: _, [] => false
  | p :: ps, c :: cs => p == c && containsAt ps cs

/-- `containsSub pat s`: `pat` occurs as a contiguous run inside `s`. -/
def containsSub (pat : List Char) : List Char → Bool
  | [] => containsAt pat []
  | c :: cs => containsAt pat (c :: cs) || containsSub pat cs

/-- JS `s.includes(pat)`. -/
def strIncludes (s pat : String) : Bool :=
  containsSub pat.toList s.toList

/-! ## JS values appearing in an `exports` table -/

/-- A JS value as it can appear as an `exports` entry or field. -/
inductive JVal where
  | null : JVal
  | bool (b : Bool) : JVal
  | num (n : Int) : JVal
  | str (s : String) : JVal
  | obj (fields : List (String × JVal)) : JVal
deriving Repr

/-- JS truthiness of a `JVal` (`undefined` is represented by `Option.none`
one level up, at field access). -/
def jsTruthy : JVal → Bool
  | .null => false
  | .bool b => b
  | .num n => n != 0
  | .str s => s != ""
  | .obj _ => true

/-- JS `v || {}` as used on each exports entry. -/
def jsOrEmpty (v : JVal) : JVal :=
  if jsTruthy v then v else .obj []

/-- JS property access `v[k]`: `none` models `undefined`.  Own properties
exist only on objects; the `import`/`require` fields read by the resolver
are absent on primitives. -/
def jsGet : JVal → String → Option JVal
  | .obj fields, k => (fields.find? (fun p => p.fst == k)).map Prod.snd
  | _, _ => none

/-- A thrown JS `TypeError` (e.g. `x.includes` is not a function). -/
inductive JsErr where
  | typeError : JsErr
deriving Repr, DecidableEq

/-- JS `v?.includes(dist)` on a field value, exactly as the resolver's
condition consumes it: `undefined`/`null` short-circuit to a falsy result;
a string answers substring containment (and the matched string is kept);
any other value throws a TypeError (`includes` is not a function). -/
def jsTryIncludes (v : Option JVal) (dist : String) : Except JsErr (Option String) :=
  match v with
  | none => .ok none
  | some .null => .ok none
  | some (.str s) => .ok (if strIncludes s dist then some s else none)
  | some _ => .error .typeError

/-! ## Manifest entry resolver

Embeds the `mainFile` computation of `fetchAndExtractPackage`:

    let mainFile = packageJson.main || 'index.js'
    if (dist && !mainFile.includes(dist) && packageJson.exports) {
      for (const key in packageJson.exports) {
        const { import: importUri, require: requireUri } = packageJson.exports[key] || {}
        if (importUri?.includes(dist)) { mainFile = importUri; break }
        else if (requireUri?.includes(dist)) { mainFile = requireUri; break }
      }
    }
-/

/-- A parsed package manifest as far as entry resolution reads it:
`main` (absent or a string) and the `exports` table (absent, or a list of
key/value pairs in the object's own insertion order). -/
structure Manifest where
  main : Option String
  exports : Option (List (String × JVal))
deriving Repr

/-- Step 1: `packageJson.main || 'index.js'` — a falsy `main` (absent or
the empty string) defaults to the literal `"index.js"`. -/
def mainEntry (m : Manifest) : String :=
  match m.main with
  | some s => if s ≠ "" then s else "index.js"
  | none => "index.js"

/-- The `for (const key in packageJson.exports)` loop: for each entry in
order, evaluate `importUri?.includes(dist)` (which may throw), on a match
return that import value; otherwise evaluate `requireUri?.includes(dist)`,
on a match return that require value; otherwise continue; when the list is
exhausted, keep the step-1 entry. -/
def exportsLoop (dist entry : String) : List (String × JVal) → Except JsErr String
  | [] => .ok entry
  | (_, v) :: rest =>
    let v' := jsOrEmpty v
    match jsTryIncludes (jsGet v' "import") dist with
    | .error e => .error e
    | .ok (some s) => .ok s
    | .ok none =>
      match jsTryIncludes (jsGet v' "require") dist with
      | .error e => .error e
      | .ok (some s) => .ok s
      | .ok none => exportsLoop dist entry rest

/-- Full entry resolution.  The guard `dist && !mainFile.includes(dist) &&
packageJson.exports` enters the loop only when a truthy (non-empty)
distribution tag was requested, the step-1 entry does not already contain
it, and the manifest has an `exports` table. -/
def resolveMainFile (m : Manifest) (dist : Option String) : Except JsErr String :=
  let entry := mainEntry m
  match dist, m.exports with
  | some d, some exps =>
    if d ≠ "" ∧ ¬ strIncludes entry d then exportsLoop d entry exps else .ok entry
  | _, _ => .ok entry

/-- Modelled from the spec (for comparison with the code, not from the
source): the two-pass reading of §4.4 step 4 — "for the first entry whose
`import` field contains `distributionTag`, return that `import` value;
else for the first entry whose `require` field contains it, return that
`require` value". -/
def specExportsScan (dist entry : String) (exps : List (String × JVal)) : String :=
  let impMatch := exps.findSome? fun p =>
    match jsGet (jsOrEmpty p.snd) "import" with
    | some (.str s) => if strIncludes s dist then some s else none
    | _ => none
  let reqMatch := exps.findSome? fun p =>
    match jsGet (jsOrEmpty p.snd) "require" with
    | some (.str s) => if strIncludes s dist then some s else none
    | _ => none
  match impMatch with
  | some s => s
  | none => match reqMatch with
    | some s => s
    | none => entry

/-- The per-entry match the code actually performs: the entry's `import`
value when it is a string containing `dist`, else its `require` value when
that is a string containing `dist`, else no match. -/
def entryMatch (dist : String) (v : JVal) : Option String :=
  match jsTryIncludes (jsGet (jsOrEmpty v) "import") dist with
  | .ok (some s) => some s
  | _ =>
    match jsTryIncludes (jsGet (jsOrEmpty v) "require") dist with
    | .ok (some s) => some s
    | _ => none

/-- An exports-entry value the loop can process without throwing: either
its `import` field is a string containing `dist` (the require field is then
never inspected), or the `import` field is absent, `null`, or a string, and
the `require` field is likewise absent, `null`, or a string. -/
def entryBenign (dist : String) (v : JVal) : Bool :=
  match jsTryIncludes (jsGet (jsOrEmpty v) "import") dist with
  | .error _ => false
  | .ok (some _) => true
  | .ok none => (jsTryIncludes (jsGet (jsOrEmpty v) "require") dist).isOk

/-! ## `retryAsync`

    async function retryAsync(fn, retries) {
      try { return await fn() }
      catch (error) { if (retries > 0) return retryAsync(fn, retries - 1); else throw error }
    }

The successive invocations of `fn` are modelled by a stream
`op : Nat → Except ε α` giving the outcome of the `k`-th call. -/

/-- `retryAsync op k retries`: run invocation `k`; on failure, if retries
remain, recurse on the next invocation with one retry fewer, else propagate
the error of this (last) attempt unchanged. -/
def retryAsync (op : Nat → Except ε α) (k : Nat) : Nat → Except ε α
  | 0 => op k
  | r + 1 =>
    match op k with
    | .ok v => .ok v
    | .error _ => retryAsync op (k + 1) r

/-- Number of invocations of the operation performed by
`retryAsync op k retries`. -/
def retryCount (op : Nat → Except ε α) (k : Nat) : Nat → Nat
  | 0 => 1
  | r + 1 =>
    match op k with
    | .ok _ => 1
    | .error _ => 1 + retryCount op (k + 1) r

/-! ## The `Promise.any` race over the locator strategies

Each concurrently started operation is modelled by its completion time and
its outcome.  `Promise.any` settles with the earliest fulfilled operation
(ties broken by position in the argument list, matching the microtask order
of same-tick settlements), and rejects with an `AggregateError` carrying
all errors in argument order only when every operation rejects. -/

/-- The error of a settled operation, if it rejected. -/
def errOf : Except ε α → Option ε
  | .error e => some e
  | .ok _ => none

/-- The earliest successful operation (completion time and value); earlier
list position wins ties. -/
def raceWinner : List (Nat × Except ε α) → Option (Nat × α)
  | [] => none
  | (t, .ok v) :: rest =>
    match raceWinner rest with
    | some (t', v') => if t' < t then some (t', v') else some (t, v)
    | none => some (t, v)
  | (_, .error _) :: rest => raceWinner rest

/-- `Promise.any`: the value of whichever operation completes successfully
first, else the aggregate of all individual errors, in argument order. -/
def raceAny (ops : List (Nat × Except ε α)) : Except (List ε) α :=
  match raceWinner ops with
  | some (_, v) => .ok v
  | none => .error (ops.filterMap (fun p => errOf p.snd))

/-- The orchestrator's tarball acquisition: `retryAsync(async () =>
Promise.any([...strategies...]), retry)` — the whole race is the retried
unit.  `attempts k` gives the (time, outcome) pairs of the three strategy
operations during the `k`-th run of the race. -/
def locateTgz (attempts : Nat → List (Nat × Except ε String)) (retry : Nat) :
    Except (List ε) String :=
  retryAsync (fun k => raceAny (attempts k)) 0 retry

/-- How many times the race is run by `locateTgz`. -/
def locateRuns (attempts : Nat → List (Nat × Except ε String)) (retry : Nat) : Nat :=
  retryCount (fun k => raceAny (attempts k)) 0 retry

/-! ## The fetch orchestrator's control flow

`fetchAndExtractPackage` is a straight-line sequence of fallible awaited
steps inside `try { ... }` with `catch (error) { await fsp.rm(tempDir,
{recursive: true, force: true}); throw error }`.  Each step's outcome is
supplied as data; the model returns the settled result together with a flag
telling whether the temp directory had been removed when the function
settled. -/

/-- Errors escaping the orchestrator: an I/O-step error (of abstract type
`ε`), or a TypeError thrown by the entry resolver on a malformed exports
entry. -/
inductive FErr (ε : Type) where
  | io (e : ε) : FErr ε
  | typeError : FErr ε
deriving Repr, DecidableEq

/-- Outcomes of the orchestrator's individual awaited steps for one call.
`readEntry` is keyed by the resolved entry path.  `rmTry` is the cleanup at
the end of the `try` block, `rmCatch` the one in the `catch` block;
`vitest`/`rmDistPkg` model the test-mode removal of the stub manifest. -/
structure FetchOutcomes (ε : Type) where
  auth : Except ε Unit
  ensurePkg : Except ε Unit
  mkdir : Except ε Unit
  locate : Except ε String
  extract : Except ε Unit
  readManifest : Except ε Manifest
  readEntry : String → Except ε String
  rmTry : Except ε Unit
  vitest : Bool
  rmDistPkg : Except ε Unit
  rmCatch : Except ε Unit

/-- Tag a step's failure with whether the temp directory was already
removed when the failure occurred. -/
def fstep (r : Except ε α) (removed : Bool) : Except (FErr ε × Bool) α :=
  r.mapError (fun e => (FErr.io e, removed))

/-- The `try` block: auth, stub-manifest check, mkdir, the retried race,
extraction, manifest read+parse, entry resolution, entry read, temp-dir
removal and (in test mode) stub-manifest removal, returning the entry
content. -/
def tryBlock (o : FetchOutcomes ε) (dist : Option String) :
    Except (FErr ε × Bool) String := do
  let _ ← fstep o.auth false
  let _ ← fstep o.ensurePkg false
  let _ ← fstep o.mkdir false
  let _ ← fstep o.locate false
  let _ ← fstep o.extract false
  let m ← fstep o.readManifest false
  let f ← (resolveMainFile m dist).mapError (fun _ => (FErr.typeError, false))
  let c ← fstep (o.readEntry f) false
  let _ ← fstep o.rmTry false
  let _ ← fstep (if o.vitest then o.rmDistPkg else .ok ()) true
  pure c

/-- The whole call: on a `try`-block error the `catch` block runs
`await fsp.rm(tempDir, ...)` and rethrows; a failure of that removal
itself escapes the `catch` block and settles the call with the removal
error instead.  The second component tells whether the temp directory was
removed when the call settled. -/
def fetchModel (o : FetchOutcomes ε) (dist : Option String) :
    Except (FErr ε) String × Bool :=
  match tryBlock o dist with
  | .ok c => (.ok c, true)
  | .error (e, removed) =>
    match o.rmCatch with
    | .ok _ => (.error e, true)
    | .error r => (.error (.io r), removed)

/-! ## Tarball locator strategies (`downloadWithNpmHttp`, `downloadWitchPack`) -/

/-- `path.join(a, b)` for the already-normalized path fragments used here. -/
def pathJoin (a b : String) : String := a ++ "/" ++ b

/-- Outcomes of the awaited sub-steps of `downloadWithNpmHttp`: the
`mkdir`, the `npm view <name> dist.tarball` shell query (non-zero status
rejects with the captured output; zero status resolves with it), and the
streamed HTTP download (a request error — including an invalid tarball URL
— rejects; `finish` resolves). -/
structure NpmHttpOutcomes (ε : Type) where
  mkdir : Except ε Unit
  view : Except ε String
  download : Except ε Unit

/-- `downloadWithNpmHttp`: query the tarball URL; on a falsy (empty) URL,
return the empty string (a fulfilled result, not a rejection); otherwise
download to `tgzPath` and return that path.  `tgzPath` stands for
`path.join(tempDir, tempFile.replace(/@\d+\.\d+\.\d+/, '') + '.tgz')`. -/
def downloadWithNpmHttp (o : NpmHttpOutcomes ε) (tgzPath : String) : Except ε String :=
  match o.mkdir with
  | .error e => .error e
  | .ok _ =>
    match o.view with
    | .error e => .error e
    | .ok tarballUrl =>
      if tarballUrl = "" then .ok ""
      else
        match o.download with
        | .error e => .error e
        | .ok _ => .ok tgzPath

/-- `if (name.startsWith('@')) name = name.slice(1)`, written on the
character list so that it evaluates by reduction. -/
def stripLeadingAt (name : String) : String :=
  match name.toList with
  | '@' :: rest => String.mk rest
  | _ => name

/-- The tarball filename pattern of `downloadWitchPack`:
`` `${name.replace(/[/@]/g, '-')}` `` after stripping a leading `@` —
every `/` and `@` becomes `-`; there is no version or `.tgz` suffix in the
pattern. -/
def tarballPattern (name : String) : String :=
  String.mk ((stripLeadingAt name).toList.map fun c =>
    if c = '/' ∨ c = '@' then '-' else c)

/-- Outcomes of the sub-steps of `downloadWitchPack`: the `mkdir`, the
`npm pack` shell invocation (non-zero status rejects with the captured
output), and the directory listing the matching file is taken from. -/
structure PackOutcomes (ε : Type) where
  mkdir : Except ε Unit
  pack : Except ε Unit
  files : List String

/-- Errors of `downloadWitchPack`: an I/O-step rejection, or the TypeError
thrown by `path.join(tempDir, undefined)` when no directory entry matches
the pattern. -/
inductive PackErr (ε : Type) where
  | io (e : ε) : PackErr ε
  | typeError : PackErr ε
deriving Repr, DecidableEq

/-- `downloadWitchPack`: run `npm pack` into `tempDir`, then take the first
directory entry matching the pattern (for the metacharacter-free patterns
produced from ordinary package names, `file.match(pattern)` is substring
containment) and return its joined path; with no matching entry,
destructuring yields `undefined` and `path.join` throws a TypeError. -/
def downloadWitchPack (o : PackOutcomes ε) (name tempDir : String) :
    Except (PackErr ε) String :=
  match o.mkdir with
  | .error e => .error (.io e)
  | .ok _ =>
    match o.pack with
    | .error e => .error (.io e)
    | .ok _ =>
      match (o.files.filter (fun f => strIncludes f (tarballPattern name))).head? with
      | some f => .ok (pathJoin tempDir f)
      | none => .error .typeError

/-! ## Temp-directory naming -/

/-- `const tempFile = name.split('/').join('-')`: splitting on the
single-character separator `'/'` and joining with `'-'` replaces every
`'/'` by `'-'`. -/
def tempFileName (name : String) : String :=
  String.mk (name.toList.map fun c => if c = '/' then '-' else c)

/-- `const tempDir = path.join(url, '..', tempFile)` — a deterministic
path under the module's directory (`base` stands for the normalized
`path.join(url, '..')`). -/
def tempDirPath (base name : String) : String :=
  pathJoin base (tempFileName name)

/-! ## Concrete manifests used in examples -/

/-- The spec's order-sensitivity example table. -/
def exportsExampleA : List (String × JVal) :=
  [("a", .obj [("import", .str "./x/dist-mjs/foo.js")]),
   ("b", .obj [("require", .str "./dist-mjs/bar.js")])]

/-- A table whose first entry matches only on `require` while a later
entry matches on `import`. -/
def exportsExampleB : List (String × JVal) :=
  [("a", .obj [("require", .str "./dist-mjs/r.js")]),
   ("b", .obj [("import", .str "./x/dist-mjs/i.js")])]

/-! ## Characterization of the exports loop -/

/-- On a table all of whose entries the loop can process without throwing,
the loop returns the per-entry first match (import checked before require
within each entry, entries in order), defaulting to the step-1 entry. -/
lemma exportsLoop_eq_findSome (d entry : String) (exps : List (String × JVal))
    (h : ∀ v ∈ exps.map Prod.snd, entryBenign d v = true) :
    exportsLoop d entry exps =
      .ok ((exps.findSome? fun p => entryMatch d p.snd).getD entry) := by
  induction exps with
  | nil => simp [exportsLoop, List.findSome?]
  | cons p rest ih =>
    obtain ⟨k, v⟩ := p
    have hv : entryBenign d v = true := h v (by simp)
    have hr : ∀ w ∈ rest.map Prod.snd, entryBenign d w = true := by
      intro w hw
      exact h w (by simp [hw])
    have ih' := ih hr
    cases him : jsTryIncludes (jsGet (jsOrEmpty v) "import") d with
    | error e => simp [entryBenign, him] at hv
    | ok oi =>
      cases oi with
      | some s => simp [exportsLoop, List.findSome?, entryMatch, him]
      | none =>
        cases hreq : jsTryIncludes (jsGet (jsOrEmpty v) "require") d with
        | error e => simp [entryBenign, him, hreq, Except.isOk, Except.toBool] at hv
        | ok og =>
          cases og with
          | some s => simp [exportsLoop, List.findSome?, entryMatch, him, hreq]
          | none => simp [exportsLoop, List.findSome?, entryMatch, him, hreq, ih']

/-! ## Claims about entry resolution -/

/-- C1 (counterexample): the claimed two-pass scan ("first entry whose
`import` contains the tag, else first entry whose `require` contains it")
disagrees with the code: on a table whose first entry matches only on
`require` while a later entry matches on `import`, the resolver returns
the first entry's `require` value, not the later `import` value the claim
prescribes. -/
theorem resolveMainFile_not_two_pass :
    resolveMainFile ⟨none, some exportsExampleB⟩ (some "dist-mjs") =
      .ok "./dist-mjs/r.js" ∧
    specExportsScan "dist-mjs" (mainEntry ⟨none, some exportsExampleB⟩)
      exportsExampleB = "./x/dist-mjs/i.js" ∧
    ("./dist-mjs/r.js" : String) ≠ "./x/dist-mjs/i.js" :=
  ⟨rfl, rfl, by decide⟩

/-- C1 (amended): when a non-empty distribution tag is requested, the
step-1 entry does not contain it, and the manifest has an exports table
whose entries the loop can process, the resolver returns the value of the
first entry (in insertion order) whose `import` — or, failing that, whose
`require` — contains the tag, the `import` field being preferred within
each single entry; the spec's own example table still resolves to
`"./x/dist-mjs/foo.js"`. -/
theorem resolveMainFile_first_entry_match :
    (∀ (m : Manifest) (d : String) (exps : List (String × JVal)),
        d ≠ "" →
        strIncludes (mainEntry m) d = false →
        m.exports = some exps →
        (∀ v ∈ exps.map Prod.snd, entryBenign d v = true) →
        resolveMainFile m (some d) =
          .ok ((exps.findSome? fun p => entryMatch d p.snd).getD (mainEntry m))) ∧
    resolveMainFile ⟨none, some exportsExampleA⟩ (some "dist-mjs") =
      .ok "./x/dist-mjs/foo.js" := by
  constructor
  · intro m d exps hd hmain hexp hben
    have hguard : resolveMainFile m (some d) = exportsLoop d (mainEntry m) exps := by
      unfold resolveMainFile
      rw [hexp]
      simp [hd, hmain]
    rw [hguard, exportsLoop_eq_findSome d (mainEntry m) exps hben]
  · rfl

/-- Witness for the amended C1 theorem at the spec's example table. -/
theorem resolveMainFile_first_entry_match_witness :
    resolveMainFile ⟨none, some exportsExampleA⟩ (some "dist-mjs") =
      .ok ((exportsExampleA.findSome? fun p => entryMatch "dist-mjs" p.snd).getD
        (mainEntry ⟨none, some exportsExampleA⟩)) :=
  resolveMainFile_first_entry_match.1 ⟨none, some exportsExampleA⟩ "dist-mjs"
    exportsExampleA (by decide) (by decide) rfl (by decide)

/-- C2: resolution returns the step-1 entry unchanged and without error
when no tag was requested, when the step-1 entry already contains the tag
(whatever the exports table holds), and when no processable export entry
matches; and the step-1 entry is `main` when non-empty, else the literal
`"index.js"`. -/
theorem resolveMainFile_fallback_cases :
    (∀ m : Manifest, resolveMainFile m none = .ok (mainEntry m)) ∧
    (∀ (m : Manifest) (d : String), strIncludes (mainEntry m) d = true →
        resolveMainFile m (some d) = .ok (mainEntry m)) ∧
    (∀ (m : Manifest) (d : String) (exps : List (String × JVal)),
        m.exports = some exps →
        (∀ v ∈ exps.map Prod.snd, entryBenign d v = true ∧ entryMatch d v = none) →
        resolveMainFile m (some d) = .ok (mainEntry m)) ∧
    (∀ m : Manifest, m.main = none ∨ m.main = some "" → mainEntry m = "index.js") ∧
    (∀ (m : Manifest) (s : String), m.main = some s → s ≠ "" → mainEntry m = s) := by
  refine ⟨?_, ?_, ?_, ?_, ?_⟩
  · intro m
    rcases m with ⟨ma, mex⟩
    cases mex <;> simp [resolveMainFile]
  · intro m d h
    rcases m with ⟨ma, mex⟩
    cases mex <;> simp [resolveMainFile, mainEntry] at h ⊢ <;> simp [h]
  · intro m d exps hexp hall
    by_cases hd : d = ""
    · unfold resolveMainFile
      rw [hexp]
      simp [hd]
    · by_cases hinc : strIncludes (mainEntry m) d = true
      · unfold resolveMainFile
        rw [hexp]
        simp [hinc]
      · have hben : ∀ v ∈ exps.map Prod.snd, entryBenign d v = true :=
          fun v hv => (hall v hv).1
        have hnone : exps.findSome? (fun p => entryMatch d p.snd) = none := by
          rw [List.findSome?_eq_none]
          intro p hp
          exact (hall p.snd (List.mem_map_of_mem Prod.snd hp)).2
        have hguard : resolveMainFile m (some d) = exportsLoop d (mainEntry m) exps := by
          unfold resolveMainFile
          rw [hexp]
          simp [hd, hinc]
        rw [hguard, exportsLoop_eq_findSome d (mainEntry m) exps hben, hnone]
        rfl
  · intro m h
    rcases m with ⟨ma, mex⟩
    rcases h with h | h <;> simp_all [mainEntry]
  · intro m s h hs
    rcases m with ⟨ma, mex⟩
    simp_all [mainEntry]

/-- Witness for the C2 theorem: each hypothesised conjunct applied at a
concrete manifest. -/
theorem resolveMainFile_fallback_cases_witness :
    resolveMainFile ⟨some "./lib/dist-cjs/index.js", some exportsExampleA⟩
      (some "dist-cjs") = .ok (mainEntry ⟨some "./lib/dist-cjs/index.js", some exportsExampleA⟩) ∧
    resolveMainFile ⟨some "m.js", some exportsExampleA⟩ (some "esm") =
      .ok (mainEntry ⟨some "m.js", some exportsExampleA⟩) ∧
    mainEntry ⟨some "", none⟩ = "index.js" ∧
    mainEntry ⟨some "m.js", none⟩ = "m.js" :=
  ⟨resolveMainFile_fallback_cases.2.1 _ "dist-cjs" (by decide),
   resolveMainFile_fallback_cases.2.2.1 _ "esm" exportsExampleA rfl (by decide),
   resolveMainFile_fallback_cases.2.2.2.1 _ (Or.inr rfl),
   resolveMainFile_fallback_cases.2.2.2.2 _ "m.js" rfl (by decide)⟩

/-- An exports table with a nested-conditions `import` value. -/
def exportsNestedExample : List (String × JVal) :=
  [(".", .obj [("import", .obj [("default", .str "./d.js")])])]

/-- Malformed-but-harmless exports entries: a `null` value, a bare string
value, and an object with neither `import` nor `require`. -/
def exportsSkippableExample : List (String × JVal) :=
  [(".", .null), ("x", .str "plain"), ("y", .obj [("types", .str "./t.d.ts")])]

/-- C10 (counterexample): resolution is not total over all malformed
export tables: on an entry whose `import` field holds an object (a nested
conditions table — an object lacking both `import` and `require` *string*
fields), `importUri?.includes(dist)` throws a TypeError instead of
skipping the entry. -/
theorem resolveMainFile_nested_import_throws :
    resolveMainFile ⟨none, some exportsNestedExample⟩ (some "esm") =
      .error JsErr.typeError :=
  rfl

/-- C10 (amended): resolution is total over entries whose value is `null`,
a bare string, a number, a boolean, or an object whose `import` field (and,
when the `import` field yields no match, whose `require` field) is absent,
`null`, or a string: such entries are skipped or matched without error; in
particular a table of a `null` entry, a bare-string entry and an object
with neither field resolves to the step-1 entry without error. -/
theorem exportsLoop_total_on_benign :
    (∀ (d entry : String) (exps : List (String × JVal)),
        (∀ v ∈ exps.map Prod.snd, entryBenign d v = true) →
        (exportsLoop d entry exps).isOk = true) ∧
    exportsLoop "esm" "index.js" exportsSkippableExample = .ok "index.js" := by
  constructor
  · intro d entry exps h
    rw [exportsLoop_eq_findSome d entry exps h]
    rfl
  · rfl

/-- Witness for the amended C10 theorem. -/
theorem exportsLoop_total_on_benign_witness :
    (exportsLoop "esm" "index.js" exportsSkippableExample).isOk = true :=
  exportsLoop_total_on_benign.1 "esm" "index.js" exportsSkippableExample (by decide)

/-! ## Claims about `retryAsync` -/

/-- An operation that fails on its first two invocations and succeeds from
the third on. -/
def opFailsTwice : Nat → Except String Nat :=
  fun k => if k < 2 then .error (toString k) else .ok 42

/-- C4: `retryAsync op retries` invokes the operation at most
`retries + 1` times; it returns the outcome of the first successful
invocation when one occurs within the attempt budget; when every attempt
fails it propagates the error of the last attempt unchanged;
`retries = 0` performs exactly one invocation and fails on its failure;
and for an operation failing twice then succeeding, two retries yield the
success while one retry propagates the second failure. -/
theorem retryAsync_spec :
    (∀ {ε α : Type} (op : Nat → Except ε α) (k r : Nat),
        retryCount op k r ≤ r + 1) ∧
    (∀ {ε α : Type} (op : Nat → Except ε α) (k r i : Nat),
        i ≤ r → (op (k + i)).isOk = true →
        (∀ j < i, (op (k + j)).isOk = false) →
        retryAsync op k r = op (k + i)) ∧
    (∀ {ε α : Type} (op : Nat → Except ε α) (k r : Nat),
        (∀ i ≤ r, (op (k + i)).isOk = false) →
        retryAsync op k r = op (k + r)) ∧
    (∀ {ε α : Type} (op : Nat → Except ε α) (k : Nat),
        retryAsync op k 0 = op k ∧ retryCount op k 0 = 1) ∧
    retryAsync opFailsTwice 0 2 = .ok 42 ∧
    retryAsync opFailsTwice 0 1 = .error (toString 1) := by
  refine ⟨?_, ?_, ?_, ?_, rfl, rfl⟩
  · intro ε α op k r
    induction r generalizing k with
    | zero => simp [retryCount]
    | succ n ih =>
      cases hop : op k with
      | ok v => simp [retryCount, hop]
      | error e =>
        have := ih (k + 1)
        simp only [retryCount, hop]
        omega
  · intro ε α op k r i hir hok hfail
    induction r generalizing k i with
    | zero =>
      interval_cases i
      simp only [Nat.add_zero] at hok ⊢
      simp [retryAsync]
    | succ n ih =>
      cases i with
      | zero =>
        simp only [Nat.add_zero] at hok ⊢
        cases hop : op k with
        | ok v => simp [retryAsync, hop]
        | error e => simp [hop, Except.isOk, Except.toBool] at hok
      | succ m =>
        have h0 : (op (k + 0)).isOk = false := hfail 0 (Nat.succ_pos m)
        rw [Nat.add_zero] at h0
        cases hop : op k with
        | ok v => simp [hop, Except.isOk, Except.toBool] at h0
        | error e =>
          have hk : k + 1 + m = k + (m + 1) := by omega
          have hrec := ih (k + 1) m (by omega) (by rw [hk]; exact hok)
            (fun j hj => by
              have := hfail (j + 1) (by omega)
              rw [show k + 1 + j = k + (j + 1) by omega]
              exact this)
          simp only [retryAsync, hop]
          rw [hrec, hk]
  · intro ε α op k r h
    induction r generalizing k with
    | zero => simp [retryAsync]
    | succ n ih =>
      have h0 : (op (k + 0)).isOk = false := h 0 (Nat.zero_le _)
      rw [Nat.add_zero] at h0
      cases hop : op k with
      | ok v => simp [hop, Except.isOk, Except.toBool] at h0
      | error e =>
        have hrec := ih (k + 1) (fun i hi => by
          have := h (i + 1) (by omega)
          rw [show k + 1 + i = k + (i + 1) by omega]
          exact this)
        simp only [retryAsync, hop]
        rw [hrec, show k + 1 + n = k + (n + 1) by omega]
  · intro ε α op k
    exact ⟨rfl, rfl⟩

/-- Witness for the C4 theorem: the retry budget bound, the first-success
and all-fail characterizations, and the zero-retry case, each at
`opFailsTwice`. -/
theorem retryAsync_spec_witness :
    retryCount opFailsTwice 0 2 ≤ 3 ∧
    retryAsync opFailsTwice 0 2 = opFailsTwice (0 + 2) ∧
    retryAsync opFailsTwice 0 1 = opFailsTwice (0 + 1) ∧
    (retryAsync opFailsTwice 0 0 = opFailsTwice 0 ∧ retryCount opFailsTwice 0 0 = 1) :=
  ⟨retryAsync_spec.1 opFailsTwice 0 2,
   retryAsync_spec.2.1 opFailsTwice 0 2 2 (by decide) (by decide) (by decide),
   retryAsync_spec.2.2.1 opFailsTwice 0 1 (by decide),
   retryAsync_spec.2.2.2.1 opFailsTwice 0⟩

/-! ## Claims about the strategy race -/

/-- A race with no winner has only failed operations. -/
lemma raceWinner_none_all_fail {ε α : Type} (ops : List (Nat × Except ε α))
    (h : raceWinner ops = none) : ∀ p ∈ ops, p.2.isOk = false := by
  induction ops with
  | nil => intro p hp; cases hp
  | cons q rest ih =>
    obtain ⟨t, r⟩ := q
    intro p hp
    cases r with
    | ok v =>
      exfalso
      rw [raceWinner] at h
      cases hw : raceWinner rest with
      | none => rw [hw] at h; cases h
      | some w =>
        obtain ⟨tw, vw⟩ := w
        rw [hw] at h
        by_cases hlt : tw < t <;> simp [hlt] at h
    | error e =>
      rw [raceWinner] at h
      rcases List.mem_cons.mp hp with hp | hp
      · subst hp; rfl
      · exact ih h p hp

/-- A race with a successful operation has a winner. -/
lemma raceWinner_isSome_of_ok {ε α : Type} (ops : List (Nat × Except ε α))
    (h : ∃ p ∈ ops, p.2.isOk = true) : (raceWinner ops).isSome = true := by
  induction ops with
  | nil => obtain ⟨p, hp, _⟩ := h; cases hp
  | cons q rest ih =>
    obtain ⟨t, r⟩ := q
    cases r with
    | ok v =>
      rw [raceWinner]
      cases hw : raceWinner rest with
      | none => rfl
      | some w =>
        obtain ⟨tw, vw⟩ := w
        by_cases hlt : tw < t <;> simp [hlt]
    | error e =>
      rw [raceWinner]
      apply ih
      obtain ⟨p, hp, hok⟩ := h
      rcases List.mem_cons.mp hp with hp | hp
      · subst hp; cases hok
      · exact ⟨p, hp, hok⟩

/-- The race's winner is a successful operation whose completion time is
minimal among the successful operations. -/
lemma raceWinner_sound {ε α : Type} (ops : List (Nat × Except ε α)) (t : Nat) (v : α)
    (h : raceWinner ops = some (t, v)) :
    (t, Except.ok v) ∈ ops ∧ ∀ p ∈ ops, p.2.isOk = true → t ≤ p.1 := by
  induction ops generalizing t v with
  | nil => cases h
  | cons q rest ih =>
    obtain ⟨t₀, r₀⟩ := q
    cases r₀ with
    | ok v₀ =>
      rw [raceWinner] at h
      cases hw : raceWinner rest with
      | none =>
        simp only [hw] at h
        simp only [Option.some.injEq, Prod.mk.injEq] at h
        obtain ⟨ht, hv⟩ := h
        subst ht; subst hv
        refine ⟨List.mem_cons_self .., ?_⟩
        intro p hp hok
        rcases List.mem_cons.mp hp with hp | hp
        · subst hp; exact Nat.le_refl _
        · exact absurd hok (by simp [raceWinner_none_all_fail rest hw p hp])
      | some w =>
        obtain ⟨tw, vw⟩ := w
        simp only [hw] at h
        by_cases hlt : tw < t₀
        · rw [if_pos hlt] at h
          simp only [Option.some.injEq, Prod.mk.injEq] at h
          obtain ⟨ht, hv⟩ := h
          subst ht; subst hv
          obtain ⟨hmem, hmin⟩ := ih tw vw hw
          refine ⟨List.mem_cons_of_mem _ hmem, ?_⟩
          intro p hp hok
          rcases List.mem_cons.mp hp with hp | hp
          · subst hp; exact Nat.le_of_lt hlt
          · exact hmin p hp hok
        · rw [if_neg hlt] at h
          simp only [Option.some.injEq, Prod.mk.injEq] at h
          obtain ⟨ht, hv⟩ := h
          subst ht; subst hv
          obtain ⟨hmem, hmin⟩ := ih tw vw hw
          refine ⟨List.mem_cons_self .., ?_⟩
          intro p hp hok
          rcases List.mem_cons.mp hp with hp | hp
          · subst hp; exact Nat.le_refl _
          · exact Nat.le_trans (Nat.le_of_not_lt hlt) (hmin p hp hok)
    | error e =>
      rw [raceWinner] at h
      obtain ⟨hmem, hmin⟩ := ih t v h
      refine ⟨List.mem_cons_of_mem _ hmem, ?_⟩
      intro p hp hok
      rcases List.mem_cons.mp hp with hp | hp
      · subst hp; simp [Except.isOk, Except.toBool] at hok
      · exact hmin p hp hok

/-- With every operation failed, the race has no winner. -/
lemma raceWinner_eq_none_of_all_fail {ε α : Type} (ops : List (Nat × Except ε α))
    (h : ∀ p ∈ ops, p.2.isOk = false) : raceWinner ops = none := by
  cases hw : raceWinner ops with
  | none => rfl
  | some w =>
    obtain ⟨t, v⟩ := w
    obtain ⟨hmem, _⟩ := raceWinner_sound ops t v hw
    have := h (t, Except.ok v) hmem
    simp [Except.isOk, Except.toBool] at this

/-- With every operation failed, the aggregate error list has one error
per operation. -/
lemma filterMap_errOf_length {ε α : Type} (ops : List (Nat × Except ε α))
    (h : ∀ p ∈ ops, p.2.isOk = false) :
    (ops.filterMap fun p => errOf p.snd).length = ops.length := by
  induction ops with
  | nil => rfl
  | cons q rest ih =>
    obtain ⟨t, r⟩ := q
    cases r with
    | ok v =>
      have := h (t, Except.ok v) (List.mem_cons_self ..)
      simp [Except.isOk, Except.toBool] at this
    | error e =>
      have hrest := ih (fun p hp => h p (List.mem_cons_of_mem _ hp))
      simp only [List.filterMap_cons]
      dsimp only [errOf] at hrest ⊢
      rw [List.length_cons, hrest, List.length_cons]

/-- Shifting the invocation index of `retryAsync` into the operation. -/
lemma retryAsync_shift {ε α : Type} (op : Nat → Except ε α) (k r : Nat) :
    retryAsync op (k + 1) r = retryAsync (fun j => op (j + 1)) k r := by
  induction r generalizing k with
  | zero => rfl
  | succ n ih =>
    cases hop : op (k + 1) with
    | ok v => simp [retryAsync, hop]
    | error e =>
      simp only [retryAsync, hop]
      exact ih (k + 1)

/-- C3: the race returns the value of an operation that completed
successfully no later than any other successful operation; it succeeds iff
some operation succeeds (hence fails iff all fail); on total failure it
fails with the aggregate of all N individual errors in argument order; and
in the orchestrator the whole race is the retried unit: a race with a
winner is not retried (exactly one run), while a fully failed race is
re-run as a unit when attempts remain and is the propagated error when
none do. -/
theorem raceAny_spec :
    (∀ {ε α : Type} (ops : List (Nat × Except ε α)) (v : α),
        raceAny ops = .ok v →
        ∃ t, (t, Except.ok v) ∈ ops ∧ ∀ p ∈ ops, p.2.isOk = true → t ≤ p.1) ∧
    (∀ {ε α : Type} (ops : List (Nat × Except ε α)),
        (∃ v, raceAny ops = .ok v) ↔ ∃ p ∈ ops, p.2.isOk = true) ∧
    (∀ {ε α : Type} (ops : List (Nat × Except ε α)),
        (∀ p ∈ ops, p.2.isOk = false) →
        raceAny ops = .error (ops.filterMap fun p => errOf p.snd) ∧
        (ops.filterMap fun p => errOf p.snd).length = ops.length) ∧
    (∀ {ε : Type} (attempts : Nat → List (Nat × Except ε String)) (r : Nat) (v : String),
        raceAny (attempts 0) = .ok v →
        locateTgz attempts r = .ok v ∧ locateRuns attempts r = 1) ∧
    (∀ {ε : Type} (attempts : Nat → List (Nat × Except ε String)) (r : Nat)
        (es : List ε),
        raceAny (attempts 0) = .error es →
        locateTgz attempts (r + 1) = locateTgz (fun k => attempts (k + 1)) r ∧
        locateTgz attempts 0 = .error es) := by
  refine ⟨?_, ?_, ?_, ?_, ?_⟩
  · intro ε α ops v h
    unfold raceAny at h
    cases hw : raceWinner ops with
    | none => simp [hw] at h
    | some w =>
      obtain ⟨t, v'⟩ := w
      simp only [hw, Except.ok.injEq] at h
      subst h
      exact ⟨t, raceWinner_sound ops t v' hw⟩
  · intro ε α ops
    constructor
    · rintro ⟨v, hv⟩
      unfold raceAny at hv
      cases hw : raceWinner ops with
      | none => simp [hw] at hv
      | some w =>
        obtain ⟨t, v'⟩ := w
        obtain ⟨hmem, _⟩ := raceWinner_sound ops t v' hw
        exact ⟨(t, Except.ok v'), hmem, rfl⟩
    · intro h
      have := raceWinner_isSome_of_ok ops h
      unfold raceAny
      cases hw : raceWinner ops with
      | none => rw [hw] at this; cases this
      | some w => exact ⟨w.2, by simp [hw]⟩
  · intro ε α ops h
    refine ⟨?_, filterMap_errOf_length ops h⟩
    unfold raceAny
    rw [raceWinner_eq_none_of_all_fail ops h]
  · intro ε attempts r v h
    cases r with
    | zero =>
      refine ⟨?_, rfl⟩
      simp only [locateTgz, retryAsync]
      exact h
    | succ n =>
      constructor
      · simp only [locateTgz, retryAsync, h]
      · simp only [locateRuns, retryCount, h]
  · intro ε attempts r es h
    constructor
    · simp only [locateTgz, retryAsync, h]
      rw [retryAsync_shift]
    · simp only [locateTgz, retryAsync]
      exact h

/-- Operations for the race witness: one success at time 10 between two
failures. -/
def raceOpsExample : List (Nat × Except String String) :=
  [(50, .error "a"), (10, .ok "w"), (50, .error "c")]

/-- Operations for the total-failure witness. -/
def raceFailExample : List (Nat × Except String String) :=
  [(50, .error "a"), (20, .error "b")]

/-- Attempt sequence whose first race fails entirely and whose later races
have a winner. -/
def attemptsExample : Nat → List (Nat × Except String String) :=
  fun k => if k = 0 then raceFailExample else raceOpsExample

/-- Witness for the C3 theorem: each hypothesised conjunct applied at the
concrete operation lists. -/
theorem raceAny_spec_witness :
    (∃ t, (t, Except.ok "w") ∈ raceOpsExample ∧
      ∀ p ∈ raceOpsExample, p.2.isOk = true → t ≤ p.1) ∧
    (raceAny raceFailExample =
        .error (raceFailExample.filterMap fun p => errOf p.snd) ∧
      (raceFailExample.filterMap fun p => errOf p.snd).length =
        raceFailExample.length) ∧
    (locateTgz (fun _ => raceOpsExample) 2 = .ok "w" ∧
      locateRuns (fun _ => raceOpsExample) 2 = 1) ∧
    (locateTgz attemptsExample 1 = locateTgz (fun k => attemptsExample (k + 1)) 0 ∧
      locateTgz attemptsExample 0 = .error ["a", "b"]) :=
  ⟨raceAny_spec.1 raceOpsExample "w" rfl,
   raceAny_spec.2.2.1 raceFailExample (by decide),
   raceAny_spec.2.2.2.1 (fun _ => raceOpsExample) 2 "w" rfl,
   raceAny_spec.2.2.2.2 attemptsExample 0 ["a", "b"] rfl⟩

/-! ## Claims about the orchestrator's cleanup and outcome -/

/-- Outcomes where extraction fails and the catch-block removal itself
fails. -/
def fetchBadCleanup : FetchOutcomes String :=
  { auth := .ok (), ensurePkg := .ok (), mkdir := .ok (), locate := .ok "t.tgz",
    extract := .error "extract failed", readManifest := .ok ⟨none, none⟩,
    readEntry := fun _ => .ok "content", rmTry := .ok (), vitest := false,
    rmDistPkg := .ok (), rmCatch := .error "rm failed" }

/-- C5 (counterexample): when a step fails and the catch-block removal
also fails, the call settles with the removal error — not the original
triggering error — and the working directory is not removed: removal
errors are not swallowed. -/
theorem fetchModel_cleanup_error_surfaces :
    fetchModel fetchBadCleanup none = (.error (.io "rm failed"), false) ∧
    (FErr.io "rm failed" : FErr String) ≠ .io "extract failed" :=
  ⟨rfl, by decide⟩

/-- C5 (amended): a removal is attempted on every exit path; when the
catch-path removal succeeds, a failing step propagates its original error
with the directory removed, and a fully successful run returns the entry
content with the directory removed; but a failing removal is not
swallowed: it settles the call with the removal error in place of the
original one. -/
theorem fetchModel_cleanup_paths :
    (∀ (o : FetchOutcomes String) (dist : Option String) (tgz e : String),
        o.auth = .ok () → o.ensurePkg = .ok () → o.mkdir = .ok () →
        o.locate = .ok tgz → o.extract = .error e → o.rmCatch = .ok () →
        fetchModel o dist = (.error (.io e), true)) ∧
    (∀ (o : FetchOutcomes String) (dist : Option String) (e : FErr String)
        (removed : Bool),
        tryBlock o dist = .error (e, removed) → o.rmCatch = .ok () →
        fetchModel o dist = (.error e, true)) ∧
    (∀ (o : FetchOutcomes String) (dist : Option String) (c : String),
        tryBlock o dist = .ok c → fetchModel o dist = (.ok c, true)) ∧
    (∀ (o : FetchOutcomes String) (dist : Option String) (e : FErr String)
        (removed : Bool) (r : String),
        tryBlock o dist = .error (e, removed) → o.rmCatch = .error r →
        fetchModel o dist = (.error (.io r), removed)) := by
  refine ⟨?_, ?_, ?_, ?_⟩
  · intro o dist tgz e h1 h2 h3 h4 h5 h6
    have htry : tryBlock o dist = .error (.io e, false) := by
      simp only [tryBlock, fstep, h1, h2, h3, h4, h5]
      rfl
    simp [fetchModel, htry, h6]
  · intro o dist e removed htry hrm
    simp [fetchModel, htry, hrm]
  · intro o dist c htry
    simp [fetchModel, htry]
  · intro o dist e removed r htry hrm
    simp [fetchModel, htry, hrm]

/-- Witness for the amended C5 theorem: a mid-pipeline failure with a
successful catch-path removal propagates the original error. -/
theorem fetchModel_cleanup_paths_witness :
    fetchModel
      { auth := .ok (), ensurePkg := .ok (), mkdir := .ok (), locate := .ok "t.tgz",
        extract := .error "extract failed", readManifest := .ok ⟨none, none⟩,
        readEntry := fun _ => .ok "content", rmTry := .ok (), vitest := false,
        rmDistPkg := .ok (), rmCatch := (.ok () : Except String Unit) } none =
      (.error (.io "extract failed"), true) :=
  fetchModel_cleanup_paths.1 _ none "t.tgz" "extract failed" rfl rfl rfl rfl rfl rfl

/-- Outcomes of a fully successful run whose entry file is empty. -/
def fetchEmptyEntry : FetchOutcomes String :=
  { auth := .ok (), ensurePkg := .ok (), mkdir := .ok (), locate := .ok "t.tgz",
    extract := .ok (), readManifest := .ok ⟨none, none⟩,
    readEntry := fun _ => .ok "", rmTry := .ok (), vitest := false,
    rmDistPkg := .ok (), rmCatch := .ok () }

/-- C8 (counterexample): a fetch whose resolved entry file is empty
succeeds and returns the empty string — the successful result is not
always non-empty text. -/
theorem fetchModel_empty_success :
    fetchModel fetchEmptyEntry none = (.ok "", true) ∧ ("" : String).length = 0 :=
  ⟨rfl, rfl⟩

/-- C8 (amended): every fetch settles in exactly one of two ways — a
returned entry text (possibly empty) or a single propagated error — never
both and never neither. -/
theorem fetchModel_dichotomy :
    ∀ (o : FetchOutcomes String) (dist : Option String),
      (∃ s, (fetchModel o dist).1 = .ok s ∧ ∀ e, (fetchModel o dist).1 ≠ .error e) ∨
      (∃ e, (fetchModel o dist).1 = .error e ∧ ∀ s, (fetchModel o dist).1 ≠ .ok s) := by
  intro o dist
  cases h : (fetchModel o dist).1 with
  | ok c => exact Or.inl ⟨c, rfl, fun e he => Except.noConfusion he⟩
  | error e => exact Or.inr ⟨e, rfl, fun s hs => Except.noConfusion hs⟩

/-! ## Claims about the locator strategies -/

/-- Query outcomes where `npm view` succeeds with empty output. -/
def npmHttpEmptyView : NpmHttpOutcomes String :=
  { mkdir := .ok (), view := .ok "", download := .ok () }

/-- C6 (counterexample): on an empty tarball-URL string from the query
capability, `downloadWithNpmHttp` does not fail — it resolves successfully
with the empty string. -/
theorem downloadWithNpmHttp_empty_resolves :
    downloadWithNpmHttp npmHttpEmptyView "pkg.tgz" = .ok "" ∧
    (downloadWithNpmHttp npmHttpEmptyView "pkg.tgz").isOk = true :=
  ⟨rfl, rfl⟩

/-- C6 (amended): the strategies reject on a failed query (non-zero
external-tool exit) and on a failed download or packaging run, and a
packaging run with no matching file throws a TypeError; a failed download
returns no path; but an empty tarball-URL string makes
`downloadWithNpmHttp` resolve with the empty string instead of failing. -/
theorem locator_failure_modes :
    (∀ (o : NpmHttpOutcomes String) (p e : String),
        o.mkdir = .ok () → o.view = .error e →
        downloadWithNpmHttp o p = .error e) ∧
    (∀ (o : NpmHttpOutcomes String) (p u e : String),
        o.mkdir = .ok () → o.view = .ok u → u ≠ "" → o.download = .error e →
        downloadWithNpmHttp o p = .error e) ∧
    (∀ (o : NpmHttpOutcomes String) (p : String),
        o.mkdir = .ok () → o.view = .ok "" →
        downloadWithNpmHttp o p = .ok "") ∧
    (∀ (o : PackOutcomes String) (n d e : String),
        o.mkdir = .ok () → o.pack = .error e →
        downloadWitchPack o n d = .error (.io e)) ∧
    (∀ (o : PackOutcomes String) (n d : String),
        o.mkdir = .ok () → o.pack = .ok () →
        (∀ f ∈ o.files, strIncludes f (tarballPattern n) = false) →
        downloadWitchPack o n d = .error PackErr.typeError) := by
  refine ⟨?_, ?_, ?_, ?_, ?_⟩
  · intro o p e hmk hv
    simp [downloadWithNpmHttp, hmk, hv]
  · intro o p u e hmk hv hu hd
    simp [downloadWithNpmHttp, hmk, hv, hu, hd]
  · intro o p hmk hv
    simp [downloadWithNpmHttp, hmk, hv]
  · intro o n d e hmk hp
    simp [downloadWitchPack, hmk, hp]
  · intro o n d hmk hp hnone
    have hfilter : o.files.filter (fun f => strIncludes f (tarballPattern n)) = [] := by
      rw [List.filter_eq_nil]
      intro a ha
      simp [hnone a ha]
    simp [downloadWitchPack, hmk, hp, hfilter]

/-- Witness for the amended C6 theorem: a failed query, a failed download
and a no-match packaging run, each at concrete outcomes. -/
theorem locator_failure_modes_witness :
    downloadWithNpmHttp
      ({ mkdir := .ok (), view := .error "exit 1", download := .ok () } :
        NpmHttpOutcomes String) "p.tgz" = .error "exit 1" ∧
    downloadWithNpmHttp
      ({ mkdir := .ok (), view := .ok "https://r/x.tgz",
         download := .error "socket hang up" } :
        NpmHttpOutcomes String) "p.tgz" = .error "socket hang up" ∧
    downloadWitchPack
      ({ mkdir := .ok (), pack := .ok (), files := ["README.md"] } :
        PackOutcomes String) "left-pad" "D" = .error PackErr.typeError :=
  ⟨locator_failure_modes.1 _ "p.tgz" "exit 1" rfl rfl,
   locator_failure_modes.2.1 _ "p.tgz" "https://r/x.tgz" "socket hang up" rfl rfl
     (by decide) rfl,
   locator_failure_modes.2.2.2.2 _ "left-pad" "D" rfl rfl (by decide)⟩

/-- A directory listing containing a file that matches the pattern but
carries no `-<version>.tgz` suffix. -/
def packNoSuffixFiles : PackOutcomes String :=
  { mkdir := .ok (), pack := .ok (), files := ["scope-name.md"] }

/-- C7 (counterexample): the pattern derived from `"@scope/name"` is just
`"scope-name"`, with no hyphen-version-extension suffix: the strategy
"locates" a file that does not even contain `".tgz"`. -/
theorem downloadWitchPack_no_suffix_required :
    downloadWitchPack packNoSuffixFiles "@scope/name" "D" =
      .ok (pathJoin "D" "scope-name.md") ∧
    strIncludes "scope-name.md" ".tgz" = false :=
  ⟨rfl, rfl⟩

/-- C7 (amended): the pattern is the package name with a leading `@`
stripped and every `/` and `@` replaced by a hyphen, matched as a bare
substring of each directory entry (no version or `.tgz` suffix is
required); the first matching entry's joined path is returned.
`"@scope/name"` yields `"scope-name"`, which matches
`"scope-name-1.0.0.tgz"` — and any other filename containing it. -/
theorem downloadWitchPack_pattern_spec :
    (∀ (o : PackOutcomes String) (n d f : String) (rest : List String),
        o.mkdir = .ok () → o.pack = .ok () →
        o.files.filter (fun x => strIncludes x (tarballPattern n)) = f :: rest →
        downloadWitchPack o n d = .ok (pathJoin d f)) ∧
    tarballPattern "@scope/name" = "scope-name" ∧
    strIncludes "scope-name-1.0.0.tgz" (tarballPattern "@scope/name") = true ∧
    strIncludes "scope-name.md" (tarballPattern "@scope/name") = true ∧
    tarballPattern "@scope/pkg@beta" = "scope-pkg-beta" := by
  refine ⟨?_, by decide, by decide, by decide, by decide⟩
  intro o n d f rest hmk hp hfilter
  simp [downloadWitchPack, hmk, hp, hfilter]

/-- Witness for the amended C7 theorem: the first matching entry of a
concrete listing is located. -/
theorem downloadWitchPack_pattern_spec_witness :
    downloadWitchPack
      ({ mkdir := .ok (), pack := .ok (),
         files := ["x.txt", "scope-name-1.0.0.tgz"] } : PackOutcomes String)
      "@scope/name" "D" = .ok (pathJoin "D" "scope-name-1.0.0.tgz") :=
  downloadWitchPack_pattern_spec.1 _ "@scope/name" "D" "scope-name-1.0.0.tgz" []
    rfl rfl (by decide)

/-! ## Claims about the working directory -/

/-- C9 (counterexample): the working-directory path is not distinct across
calls: the two different package names `"a/b"` and `"a-b"` yield the same
working directory (and any two calls for one name trivially share it). -/
theorem tempDirPath_distinct_names_collide :
    tempDirPath "BASE" "a/b" = tempDirPath "BASE" "a-b" ∧
    ("a/b" : String) ≠ "a-b" :=
  ⟨rfl, by decide⟩

/-- C9 (amended): the working directory is a deterministic function of the
package name alone (slashes joined with hyphens under the module's
directory): calls whose transformed names coincide — in particular any two
calls for the same name, and distinct names such as `"a/b"` and `"a-b"` —
share one working-directory path; nothing per-call is fresh. -/
theorem tempDirPath_function_of_name :
    (∀ (base n₁ n₂ : String), tempFileName n₁ = tempFileName n₂ →
        tempDirPath base n₁ = tempDirPath base n₂) ∧
    tempFileName "a/b" = "a-b" ∧
    tempFileName "a-b" = "a-b" ∧
    tempDirPath "BASE" "@scope/name" = pathJoin "BASE" "@scope-name" := by
  refine ⟨?_, rfl, rfl, rfl⟩
  intro base n₁ n₂ h
  unfold tempDirPath
  rw [h]

/-- Witness for the amended C9 theorem at the colliding pair. -/
theorem tempDirPath_function_of_name_witness :
    tempDirPath "BASE" "a/b" = tempDirPath "BASE" "a-b" :=
  tempDirPath_function_of_name.1 "BASE" "a/b" "a-b" (by decide)
